import Mathlib

/-!
Shallow embedding of `src/FocusGame.py` (the Focus/Domination board game engine)
and a verification of its specification claims.

Conventions of the embedding:
- Python strings become `String`; piece markers are the strings used by the source
  (the board is initialized with the markers written in `FocusGame.__init__`).
- The per-cell `Queue` objects become plain `List Piece` values, bottom of the
  stack at index 0 and top at the last index, exactly as the source documents.
- Python `int` board coordinates are modelled as `Nat`; the engine rejects any
  coordinate outside `range(6)` before indexing, so nonnegative coordinates
  cover every behavior the mutating operations can exhibit.
- A Python method that can raise an uncaught exception is modelled as returning
  `Option`: `none` is the exception (`KeyError` from `self._players[name]`,
  `IndexError` from `data[-1]` on an empty list), `some` is a normal return.
- `FocusGame.reserved_move` returns Python `False` on a rejected move and the
  implicit `None` on success; this two-valued outcome is modelled as a `Bool`
  (`false` = rejected, `true` = completed).
-/

/-- `MAX_HEIGHT`: global constant limiting the height of a board stack. -/
def MAX_HEIGHT : Nat := 5

/-- Piece markers are strings, as in the source. -/
abbrev Piece := String

/-- A board cell: the `Queue` class, bottom at index 0, top at the last index. -/
abbrev Cell := List Piece

/-- The board: `list` of `list` of `Queue`. -/
abbrev Board := List (List Cell)

/-- `Player.__init__`: name, piece, reserve and captured counters. -/
structure Player where
  name : String
  piece : Piece
  reserve : Nat
  captured : Nat
deriving DecidableEq, Repr

namespace Player

/-- `Player.add_captured`. -/
def add_captured (p : Player) : Player := { p with captured := p.captured + 1 }

/-- `Player.add_reserved`. -/
def add_reserved (p : Player) : Player := { p with reserve := p.reserve + 1 }

/-- `Player.remove_reserved`: decrement clamped at zero. -/
def remove_reserved (p : Player) : Player :=
  if p.reserve > 0 then { p with reserve := p.reserve - 1 } else p

end Player

/-- `Queue.enqueue`: append to the end (top). -/
def enqueue (data : Cell) (value : Piece) : Cell := data ++ [value]

/-- `Queue.dequeue`: remove and return the element at index 0 (bottom);
`none` models the `IndexError` raised on an empty list. -/
def dequeue (data : Cell) : Option (Piece × Cell) :=
  match data with
  | [] => none
  | p :: rest => some (p, rest)

/-- `Queue.display_top`: `data[-1]`; `none` models the `IndexError` on empty. -/
def display_top (data : Cell) : Option Piece := data.getLast?

/-- `Queue.remove_items`: `(removed, remaining) = (data[-n:], data[:-n])`.
Python slice semantics make `n = 0` degenerate: `data[-0:]` is the whole list
and `data[:-0]` is empty. For `n > 0`, the last `n` elements are removed
(all of them when `n` exceeds the length). -/
def remove_items (data : Cell) (num_pieces : Nat) : Cell × Cell :=
  if num_pieces = 0 then (data, [])
  else (data.drop (data.length - num_pieces), data.take (data.length - num_pieces))

/-- `Queue.add_items`: append a list of pieces at the end (top). -/
def add_items (data pieces_to_add : Cell) : Cell := data ++ pieces_to_add

/-- The whole mutable state of a `FocusGame` object: the board, the two player
objects, and `_player_turn` (`none` is Python `None`, the terminal sentinel). -/
structure GameState where
  board : Board
  firstPlayer : Player
  secondPlayer : Player
  playerTurn : Option String
deriving DecidableEq, Repr

/-- Read the cell `board[row][column]` (callers index only in bounds). -/
def getCell (b : Board) (row column : Nat) : Cell :=
  (b.getD row []).getD column []

/-- Write the cell `board[row][column]` (no-op out of bounds; callers stay
in bounds). -/
def setCell (b : Board) (row column : Nat) (v : Cell) : Board :=
  b.set row ((b.getD row []).set column v)

/-- `self._players[name]`: dictionary lookup. The dict maps each player's name
to its object, the second insertion winning on a name collision; `none` models
the `KeyError` on an unknown name. -/
def getPlayer (s : GameState) (name : String) : Option Player :=
  if name = s.secondPlayer.name then some s.secondPlayer
  else if name = s.firstPlayer.name then some s.firstPlayer
  else none

/-- Write back a mutation of the player object that
`self._players[name]` aliases. -/
def setPlayer (s : GameState) (name : String) (p : Player) : GameState :=
  if name = s.secondPlayer.name then { s with secondPlayer := p }
  else if name = s.firstPlayer.name then { s with firstPlayer := p }
  else s

/-- `FocusGame.__init__`: the fixed 6×6 starting board of singleton stacks,
two fresh players, and the turn given to the first-constructed player. -/
def initGame (player_a player_b : String × Piece) : GameState :=
  { board :=
      [[["R"], ["R"], ["G"], ["G"], ["R"], ["R"]],
       [["G"], ["G"], ["R"], ["R"], ["G"], ["G"]],
       [["R"], ["R"], ["G"], ["G"], ["R"], ["R"]],
       [["G"], ["G"], ["R"], ["R"], ["G"], ["G"]],
       [["R"], ["R"], ["G"], ["G"], ["R"], ["R"]],
       [["G"], ["G"], ["R"], ["R"], ["G"], ["G"]]],
    firstPlayer := { name := player_a.1, piece := player_a.2, reserve := 0, captured := 0 },
    secondPlayer := { name := player_b.1, piece := player_b.2, reserve := 0, captured := 0 },
    playerTurn := some player_a.1 }

/-- `FocusGame.show_reserve`: 0 for an unknown name. -/
def show_reserve (s : GameState) (player_name : String) : Nat :=
  match getPlayer s player_name with
  | none => 0
  | some player => player.reserve

/-- `FocusGame.show_captured`: 0 for an unknown name. -/
def show_captured (s : GameState) (player_name : String) : Nat :=
  match getPlayer s player_name with
  | none => 0
  | some player => player.captured

/-- `FocusGame.show_pieces`: unchecked indexing `board[row][column]`;
`none` models the `IndexError` out of bounds. -/
def show_pieces (s : GameState) (position : Nat × Nat) : Option Cell :=
  let (row, column) := position
  match s.board.get? row with
  | none => none
  | some r => r.get? column

/-- `FocusGame.check_position`: both coordinates must lie in
`range(len(board))` (the source checks the column against the row count too). -/
def check_position (b : Board) (row column : Nat) : Bool :=
  decide (row < b.length) && decide (column < b.length)

/-- `FocusGame.check_move`: a horizontal move keeps the row and covers exactly
`num_pieces` columns, a vertical move keeps the column and covers exactly
`num_pieces` rows. -/
def check_move (start_row start_column end_row end_column : Nat) (num_pieces : Nat) : Bool :=
  (decide (start_row = end_row) && decide (((start_column : Int) - end_column).natAbs = num_pieces))
  || (decide (start_column = end_column) && decide (((start_row : Int) - end_row).natAbs = num_pieces))

/-- `FocusGame.switch_turns`. -/
def switch_turns (s : GameState) : GameState :=
  if s.playerTurn = some s.firstPlayer.name
  then { s with playerTurn := some s.secondPlayer.name }
  else { s with playerTurn := some s.firstPlayer.name }

/-- The loop body of `FocusGame.remove_pieces`: dequeue `k` times from the
bottom, crediting each removed piece to the acting player's reserve (own
piece) or captured (other piece) counter. The `none` branch of `dequeue`
(Python `IndexError`) is unreachable from `remove_pieces`, whose iteration
count never exceeds the stack length. -/
def shed (piece : Piece) : Nat → Cell → Nat → Nat → Cell × Nat × Nat
  | 0, data, res, cap => (data, res, cap)
  | k + 1, data, res, cap =>
    match dequeue data with
    | none => (data, res, cap)
    | some (removed_piece, rest) =>
      if removed_piece = piece then shed piece k rest (res + 1) cap
      else shed piece k rest res (cap + 1)

/-- `FocusGame.remove_pieces`, abstracted over the acting player's piece and
counters: if the stack is higher than `MAX_HEIGHT`, remove
`length - MAX_HEIGHT` pieces from the bottom, crediting each to the acting
player. Returns the new stack and the new reserve and captured counters. -/
def remove_pieces (piece : Piece) (stack : Cell) (res cap : Nat) : Cell × Nat × Nat :=
  if stack.length > MAX_HEIGHT then shed piece (stack.length - MAX_HEIGHT) stack res cap
  else (stack, res, cap)

/-- `FocusGame.check_win`: the flag starts true, is cleared when the player's
captured count is below 18, and is cleared by any nonempty cell whose top
piece is not the player's. Both loops range over `len(board)`. -/
def check_win (b : Board) (player : Player) : Bool :=
  decide (18 ≤ player.captured) &&
  (List.range b.length).all (fun row =>
    (List.range b.length).all (fun column =>
      decide (0 < (getCell b row column).length →
        (getCell b row column).getLast? = some player.piece)))

/-- The mutation phase of `FocusGame.reserved_move`, run once every check has
passed: enqueue the player's piece on the target stack, decrement the reserve,
apply `remove_pieces` at the target cell, and switch turns. -/
def reserved_move_commit (s : GameState) (player_name : String) (player : Player)
    (row column : Nat) : GameState :=
  let stack1 := enqueue (getCell s.board row column) player.piece
  let player1 := player.remove_reserved
  let rpc := remove_pieces player1.piece stack1 player1.reserve player1.captured
  let player2 := { player1 with reserve := rpc.2.1, captured := rpc.2.2 }
  switch_turns (setPlayer { s with board := setCell s.board row column rpc.1 } player_name player2)

/-- `FocusGame.reserved_move`. `none` models the `KeyError` on an unknown
player name; `some (s, false)` is a rejected move (no state change);
`some (s, true)` is a completed move (Python returns `None`). -/
def reserved_move (s : GameState) (player_name : String) (position : Nat × Nat) :
    Option (GameState × Bool) :=
  let (row, column) := position
  match getPlayer s player_name with
  | none => none
  | some player =>
    if some player_name ≠ s.playerTurn then some (s, false)
    else if player.reserve ≤ 0 then some (s, false)
    else if !(check_position s.board row column) then some (s, false)
    else some (reserved_move_commit s player_name player row column, true)

/-- The three outcomes of `FocusGame.move_piece`: Python `False`, `"Wins"`,
and `"successfully moved"`. -/
inductive MoveOut
  | rejected
  | wins
  | moved
deriving DecidableEq, Repr

/-- The mutation phase of `FocusGame.move_piece`, run once every check has
passed: remove the top `num_pieces` pieces from the source stack, append them
to the destination stack, apply `remove_pieces` at the destination, switch
turns, then report a win (turn set to the `none` sentinel) or a plain move. -/
def move_piece_commit (s : GameState) (player_name : String) (player : Player)
    (start_row start_column end_row end_column num_pieces : Nat) : GameState × MoveOut :=
  let mr := remove_items (getCell s.board start_row start_column) num_pieces
  let b1 := setCell s.board start_row start_column mr.2
  let landing := add_items (getCell b1 end_row end_column) mr.1
  let rpc := remove_pieces player.piece landing player.reserve player.captured
  let b2 := setCell b1 end_row end_column rpc.1
  let player2 := { player with reserve := rpc.2.1, captured := rpc.2.2 }
  let s1 := switch_turns (setPlayer { s with board := b2 } player_name player2)
  if check_win s1.board player2 then ({ s1 with playerTurn := none }, MoveOut.wins)
  else (s1, MoveOut.moved)

/-- `FocusGame.move_piece`. `none` models an uncaught exception (`KeyError` on
an unknown player name, or `IndexError` from `display_top` when the control
check reads the top of an empty stack, reachable only with `num_pieces = 0`). -/
def move_piece (s : GameState) (player_name : String)
    (move_from move_to : Nat × Nat) (num_pieces : Nat) :
    Option (GameState × MoveOut) :=
  let (start_row, start_column) := move_from
  let (end_row, end_column) := move_to
  match getPlayer s player_name with
  | none => none
  | some player =>
    if some player_name ≠ s.playerTurn then some (s, MoveOut.rejected)
    else if !(check_position s.board start_row start_column)
        || !(check_position s.board end_row end_column) then some (s, MoveOut.rejected)
    else if (getCell s.board start_row start_column).length < num_pieces then
      some (s, MoveOut.rejected)
    else if !(check_move start_row start_column end_row end_column num_pieces) then
      some (s, MoveOut.rejected)
    else
      match display_top (getCell s.board start_row start_column) with
      | none => none
      | some top =>
        if player.piece ≠ top then some (s, MoveOut.rejected)
        else some (move_piece_commit s player_name player
          start_row start_column end_row end_column num_pieces)

/-- Board well-formedness: the 6×6 shape established by `FocusGame.__init__`
and preserved by every operation. -/
def WF (s : GameState) : Prop :=
  s.board.length = 6 ∧ ∀ row ∈ s.board, row.length = 6

instance (s : GameState) : Decidable (WF s) := by
  unfold WF; infer_instance

/-- One externally invokable mutating operation of the engine. -/
inductive Op
  | reserve (player_name : String) (position : Nat × Nat)
  | move (player_name : String) (move_from move_to : Nat × Nat) (num_pieces : Nat)

/-- Run one operation. An exceptional call (`none`) leaves the object state
unchanged: both exceptions are raised before any mutation. -/
def applyOp (s : GameState) (o : Op) : GameState :=
  match o with
  | Op.reserve player_name position =>
    match reserved_move s player_name position with
    | none => s
    | some out => out.1
  | Op.move player_name move_from move_to num_pieces =>
    match move_piece s player_name move_from move_to num_pieces with
    | none => s
    | some out => out.1

/-- Number of pieces on the whole board. -/
def boardCount (b : Board) : Nat :=
  (b.map (fun row => (row.map List.length).sum)).sum

/-- Board pieces plus both players' reserve and captured counters. -/
def total (s : GameState) : Nat :=
  boardCount s.board + s.firstPlayer.reserve + s.firstPlayer.captured +
    s.secondPlayer.reserve + s.secondPlayer.captured

/-! ### Generic list lemmas -/

theorem list_getD_set_self {α : Type} (l : List α) (i : Nat) (v d : α) (h : i < l.length) :
    (l.set i v).getD i d = v := by
  induction l generalizing i with
  | nil => simp at h
  | cons a t ih =>
    cases i with
    | zero => rfl
    | succ j => simpa using ih j (by simpa using h)

theorem list_getD_set_ne {α : Type} (l : List α) (i j : Nat) (v d : α) (h : i ≠ j) :
    (l.set i v).getD j d = l.getD j d := by
  induction l generalizing i j with
  | nil => simp
  | cons a t ih =>
    cases i with
    | zero =>
      cases j with
      | zero => exact absurd rfl h
      | succ j' => simp
    | succ i' =>
      cases j with
      | zero => simp
      | succ j' => simpa using ih i' j' (fun hh => h (by rw [hh]))

theorem list_getD_mem {α : Type} (l : List α) (i : Nat) (d : α) (h : i < l.length) :
    l.getD i d ∈ l := by
  rw [List.getD_eq_getElem _ _ h]
  exact List.getElem_mem h

theorem countP_not_add {α : Type} (p : α → Bool) (l : List α) :
    l.countP p + l.countP (fun a => !p a) = l.length := by
  induction l with
  | nil => simp
  | cons a t ih =>
    by_cases h : p a <;> simp [List.countP_cons, h] <;> omega

/-! ### Cell and board access lemmas -/

theorem getCell_setCell_self (b : Board) (r c : Nat) (v : Cell)
    (hr : r < b.length) (hc : c < (b.getD r []).length) :
    getCell (setCell b r c v) r c = v := by
  unfold getCell setCell
  rw [list_getD_set_self _ _ _ _ hr, list_getD_set_self _ _ _ _ hc]

theorem getCell_setCell_ne (b : Board) (r c r' c' : Nat) (v : Cell)
    (h : r ≠ r' ∨ c ≠ c') :
    getCell (setCell b r c v) r' c' = getCell b r' c' := by
  unfold getCell setCell
  rcases h with h | h
  · rw [list_getD_set_ne _ _ _ _ _ h]
  · by_cases hr : r = r'
    · subst hr
      by_cases hlt : r < b.length
      · rw [list_getD_set_self _ _ _ _ hlt, list_getD_set_ne _ _ _ _ _ h]
      · have : b.set r ((b.getD r []).set c v) = b := by
          apply List.set_eq_of_length_le
          omega
        rw [this]
    · rw [list_getD_set_ne _ _ _ _ _ hr]

theorem length_setCell (b : Board) (r c : Nat) (v : Cell) :
    (setCell b r c v).length = b.length := by
  unfold setCell
  exact List.length_set b r _

theorem rowSum_set (row : List Cell) (c : Nat) (v : Cell) (hc : c < row.length) :
    ((row.set c v).map List.length).sum + (row.getD c []).length
      = (row.map List.length).sum + v.length := by
  induction row generalizing c with
  | nil => simp at hc
  | cons a t ih =>
    cases c with
    | zero => simp; omega
    | succ c' =>
      have := ih c' (by simpa using hc)
      simp only [List.set_cons_succ, List.map_cons, List.sum_cons, List.getD_cons_succ]
      omega

theorem boardCount_setCell (b : Board) (r c : Nat) (v : Cell)
    (hr : r < b.length) (hc : c < (b.getD r []).length) :
    boardCount (setCell b r c v) + (getCell b r c).length = boardCount b + v.length := by
  induction b generalizing r with
  | nil => simp at hr
  | cons row t ih =>
    cases r with
    | zero =>
      have := rowSum_set row c v (by simpa using hc)
      simp only [setCell, getCell, boardCount, List.getD_cons_zero, List.set_cons_zero,
        List.map_cons, List.sum_cons] at *
      omega
    | succ r' =>
      have hr' : r' < t.length := by simpa using hr
      have := ih r' hr' (by simpa using hc)
      simp only [setCell, getCell, boardCount, List.getD_cons_succ, List.set_cons_succ,
        List.map_cons, List.sum_cons] at *
      omega

theorem wf_board_setCell (b : Board) (r c : Nat) (v : Cell)
    (h6 : b.length = 6) (hrows : ∀ row ∈ b, row.length = 6) (hr : r < b.length) :
    (setCell b r c v).length = 6 ∧ ∀ row ∈ setCell b r c v, row.length = 6 := by
  refine ⟨by rw [length_setCell]; exact h6, ?_⟩
  intro row hrow
  rcases List.mem_or_eq_of_mem_set hrow with h | h
  · exact hrows _ h
  · subst h
    rw [List.length_set]
    exact hrows _ (list_getD_mem _ _ _ hr)

/-! ### `remove_items`, `shed`, `remove_pieces` lemmas -/

theorem remove_items_append (data : Cell) (n : Nat) :
    (remove_items data n).2 ++ (remove_items data n).1 = data := by
  unfold remove_items
  by_cases h : n = 0
  · simp [h]
  · simp [h, List.take_append_drop]

theorem remove_items_fst_of_le (data : Cell) (n : Nat) (h1 : 1 ≤ n) (h2 : n ≤ data.length) :
    (remove_items data n).1 = data.drop (data.length - n) ∧
    (remove_items data n).2 = data.take (data.length - n) ∧
    (remove_items data n).1.length = n := by
  unfold remove_items
  rw [if_neg (by omega)]
  refine ⟨rfl, rfl, ?_⟩
  simp [List.length_drop]
  omega

theorem shed_spec (piece : Piece) (k : Nat) (data : Cell) (res cap : Nat) (hk : k ≤ data.length) :
    shed piece k data res cap =
      (data.drop k,
       res + (data.take k).countP (fun x => x == piece),
       cap + (data.take k).countP (fun x => !(x == piece))) := by
  induction k generalizing data res cap with
  | zero => simp [shed]
  | succ k' ih =>
    match data with
    | [] => simp at hk
    | p :: rest =>
      have hk' : k' ≤ rest.length := by simpa using hk
      simp only [shed, dequeue]
      by_cases hp : p = piece
      · rw [if_pos hp, ih rest (res + 1) cap hk']
        simp only [List.drop_succ_cons, List.take_succ_cons, List.countP_cons, Prod.mk.injEq]
        refine ⟨trivial, ?_, ?_⟩
        · simp [hp]; omega
        · simp [hp]
      · rw [if_neg hp, ih rest res (cap + 1) hk']
        simp only [List.drop_succ_cons, List.take_succ_cons, List.countP_cons, Prod.mk.injEq]
        refine ⟨trivial, ?_, ?_⟩
        · simp [hp]
        · simp [hp]; omega

theorem remove_pieces_spec (piece : Piece) (stack : Cell) (res cap : Nat) :
    remove_pieces piece stack res cap =
      (stack.drop (stack.length - MAX_HEIGHT),
       res + (stack.take (stack.length - MAX_HEIGHT)).countP (fun x => x == piece),
       cap + (stack.take (stack.length - MAX_HEIGHT)).countP (fun x => !(x == piece))) := by
  unfold remove_pieces
  by_cases h : stack.length > MAX_HEIGHT
  · rw [if_pos h]
    exact shed_spec piece _ stack res cap (Nat.sub_le _ _)
  · rw [if_neg h]
    have h0 : stack.length - MAX_HEIGHT = 0 := by omega
    simp [h0]

theorem remove_pieces_length (piece : Piece) (stack : Cell) (res cap : Nat) :
    (remove_pieces piece stack res cap).1.length = min MAX_HEIGHT stack.length := by
  rw [remove_pieces_spec]
  simp [List.length_drop]
  omega

theorem remove_pieces_total (piece : Piece) (stack : Cell) (res cap : Nat) :
    (remove_pieces piece stack res cap).1.length + (remove_pieces piece stack res cap).2.1 +
      (remove_pieces piece stack res cap).2.2 = stack.length + res + cap := by
  rw [remove_pieces_spec]
  have h1 := countP_not_add (fun x => x == piece) (stack.take (stack.length - MAX_HEIGHT))
  have h2 : (stack.take (stack.length - MAX_HEIGHT)).length =
      min (stack.length - MAX_HEIGHT) stack.length := List.length_take _ _
  have h3 : (stack.drop (stack.length - MAX_HEIGHT)).length =
      stack.length - (stack.length - MAX_HEIGHT) := List.length_drop _ _
  simp only at h1 ⊢
  omega

/-! ### State-plumbing lemmas -/

theorem setPlayer_board (s : GameState) (name : String) (p : Player) :
    (setPlayer s name p).board = s.board := by
  unfold setPlayer; split <;> try split
  all_goals rfl

theorem setPlayer_turn (s : GameState) (name : String) (p : Player) :
    (setPlayer s name p).playerTurn = s.playerTurn := by
  unfold setPlayer; split <;> try split
  all_goals rfl

theorem switch_turns_board (s : GameState) :
    (switch_turns s).board = s.board := by
  unfold switch_turns; split <;> rfl

theorem switch_turns_players (s : GameState) :
    (switch_turns s).firstPlayer = s.firstPlayer ∧ (switch_turns s).secondPlayer = s.secondPlayer := by
  unfold switch_turns; split <;> exact ⟨rfl, rfl⟩

theorem switch_turns_turn (s : GameState) :
    (switch_turns s).playerTurn =
      if s.playerTurn = some s.firstPlayer.name
      then some s.secondPlayer.name else some s.firstPlayer.name := by
  unfold switch_turns; split <;> simp_all

theorem getPlayer_setPlayer_self (s : GameState) (name : String) (p p' : Player)
    (hp : getPlayer s name = some p) (hname : p'.name = p.name) :
    getPlayer (setPlayer s name p') name = some p' := by
  unfold getPlayer setPlayer at *
  split at hp
  · injection hp with hp
    simp_all
  · split at hp
    · injection hp with hp
      simp_all
    · cases hp

/-! ### Inversion lemmas for `reserved_move` -/

theorem reserved_move_false_inv (s : GameState) (name : String) (pos : Nat × Nat)
    (s₁ : GameState) (h : reserved_move s name pos = some (s₁, false)) : s₁ = s := by
  obtain ⟨row, column⟩ := pos
  rw [reserved_move] at h
  cases hgp : getPlayer s name with
  | none => rw [hgp] at h; cases h
  | some player =>
    rw [hgp] at h
    simp only at h
    by_cases h1 : some name ≠ s.playerTurn
    · rw [if_pos h1] at h; injection h with h; injection h with h _; exact h.symm
    · rw [if_neg h1] at h
      by_cases h2 : player.reserve ≤ 0
      · rw [if_pos h2] at h; injection h with h; injection h with h _; exact h.symm
      · rw [if_neg h2] at h
        by_cases h3 : !(check_position s.board row column)
        · rw [if_pos h3] at h; injection h with h; injection h with h _; exact h.symm
        · rw [if_neg h3] at h; injection h with h; injection h with _ h; cases h

theorem reserved_move_true_inv (s : GameState) (name : String) (row column : Nat)
    (s' : GameState) (h : reserved_move s name (row, column) = some (s', true)) :
    ∃ p, getPlayer s name = some p ∧ s.playerTurn = some name ∧ 0 < p.reserve ∧
      check_position s.board row column = true ∧
      s' = reserved_move_commit s name p row column := by
  rw [reserved_move] at h
  cases hgp : getPlayer s name with
  | none => rw [hgp] at h; cases h
  | some player =>
    rw [hgp] at h
    simp only at h
    by_cases h1 : some name ≠ s.playerTurn
    · rw [if_pos h1] at h; injection h with h; injection h with _ h; cases h
    · rw [if_neg h1] at h
      by_cases h2 : player.reserve ≤ 0
      · rw [if_pos h2] at h; injection h with h; injection h with _ h; cases h
      · rw [if_neg h2] at h
        by_cases h3 : !(check_position s.board row column)
        · rw [if_pos h3] at h; injection h with h; injection h with _ h; cases h
        · rw [if_neg h3] at h
          injection h with h
          injection h with h _
          refine ⟨player, rfl, ?_, by omega, by simpa using h3, h.symm⟩
          by_contra hne
          exact h1 (fun hh => hne hh.symm)

/-! ### Inversion lemmas for `move_piece` -/

theorem move_piece_rejected_inv (s : GameState) (name : String) (frm oto : Nat × Nat)
    (n : Nat) (s₁ : GameState)
    (h : move_piece s name frm oto n = some (s₁, MoveOut.rejected)) : s₁ = s := by
  obtain ⟨fr, fc⟩ := frm
  obtain ⟨tr, tc⟩ := oto
  rw [move_piece] at h
  cases hgp : getPlayer s name with
  | none => rw [hgp] at h; cases h
  | some player =>
    rw [hgp] at h
    simp only at h
    by_cases h1 : some name ≠ s.playerTurn
    · rw [if_pos h1] at h; injection h with h; injection h with h _; exact h.symm
    · rw [if_neg h1] at h
      by_cases h2 : !(check_position s.board fr fc) || !(check_position s.board tr tc)
      · rw [if_pos h2] at h; injection h with h; injection h with h _; exact h.symm
      · rw [if_neg h2] at h
        by_cases h3 : (getCell s.board fr fc).length < n
        · rw [if_pos h3] at h; injection h with h; injection h with h _; exact h.symm
        · rw [if_neg h3] at h
          by_cases h4 : !(check_move fr fc tr tc n)
          · rw [if_pos h4] at h; injection h with h; injection h with h _; exact h.symm
          · rw [if_neg h4] at h
            cases htop : display_top (getCell s.board fr fc) with
            | none => rw [htop] at h; cases h
            | some top =>
              rw [htop] at h
              try simp only at h
              by_cases h5 : player.piece ≠ top
              · rw [if_pos h5] at h; injection h with h; injection h with h _; exact h.symm
              · rw [if_neg h5] at h
                injection h with h
                exfalso
                rw [move_piece_commit] at h
                try simp only at h
                split at h
                · cases h
                · cases h

theorem move_piece_success_inv (s : GameState) (name : String)
    (fr fc tr tc n : Nat) (s' : GameState) (r : MoveOut)
    (h : move_piece s name (fr, fc) (tr, tc) n = some (s', r)) (hr : r ≠ MoveOut.rejected) :
    ∃ p, getPlayer s name = some p ∧ s.playerTurn = some name ∧
      check_position s.board fr fc = true ∧ check_position s.board tr tc = true ∧
      n ≤ (getCell s.board fr fc).length ∧
      check_move fr fc tr tc n = true ∧
      (getCell s.board fr fc).getLast? = some p.piece ∧
      (s', r) = move_piece_commit s name p fr fc tr tc n := by
  rw [move_piece] at h
  cases hgp : getPlayer s name with
  | none => rw [hgp] at h; cases h
  | some player =>
    rw [hgp] at h
    simp only at h
    by_cases h1 : some name ≠ s.playerTurn
    · rw [if_pos h1] at h
      injection h with h; injection h with _ hbad; exact absurd hbad.symm hr
    · rw [if_neg h1] at h
      by_cases h2 : !(check_position s.board fr fc) || !(check_position s.board tr tc)
      · rw [if_pos h2] at h
        injection h with h; injection h with _ hbad; exact absurd hbad.symm hr
      · rw [if_neg h2] at h
        by_cases h3 : (getCell s.board fr fc).length < n
        · rw [if_pos h3] at h
          injection h with h; injection h with _ hbad; exact absurd hbad.symm hr
        · rw [if_neg h3] at h
          by_cases h4 : !(check_move fr fc tr tc n)
          · rw [if_pos h4] at h
            injection h with h; injection h with _ hbad; exact absurd hbad.symm hr
          · rw [if_neg h4] at h
            cases htop : display_top (getCell s.board fr fc) with
            | none => rw [htop] at h; cases h
            | some top =>
              rw [htop] at h
              try simp only at h
              by_cases h5 : player.piece ≠ top
              · rw [if_pos h5] at h
                injection h with h; injection h with _ hbad; exact absurd hbad.symm hr
              · rw [if_neg h5] at h
                injection h with h
                push_neg at h1 h5
                simp only [Bool.or_eq_true, Bool.not_eq_true', not_or, Bool.not_eq_false] at h2
                simp only [Bool.not_eq_true', Bool.not_eq_false] at h4
                refine ⟨player, rfl, h1.symm, h2.1, h2.2, by omega, h4, ?_, h.symm⟩
                rw [display_top] at htop
                rw [htop, h5]

/-! ### Forward rejection and totality lemmas -/

theorem reserved_move_rejects (s : GameState) (name : String) (row column : Nat) (p : Player)
    (hp : getPlayer s name = some p)
    (hfail : s.playerTurn ≠ some name ∨ p.reserve = 0 ∨
      check_position s.board row column = false) :
    reserved_move s name (row, column) = some (s, false) := by
  rw [reserved_move, hp]
  simp only
  by_cases h1 : some name ≠ s.playerTurn
  · rw [if_pos h1]
  · rw [if_neg h1]
    by_cases h2 : p.reserve ≤ 0
    · rw [if_pos h2]
    · rw [if_neg h2]
      by_cases h3 : !(check_position s.board row column)
      · rw [if_pos h3]
      · exfalso
        push_neg at h1
        rcases hfail with hf | hf | hf
        · exact hf h1.symm
        · omega
        · simp [hf] at h3

theorem move_piece_rejects (s : GameState) (name : String) (fr fc tr tc n : Nat) (p : Player)
    (hp : getPlayer s name = some p)
    (hfail : s.playerTurn ≠ some name ∨ check_position s.board fr fc = false ∨
      check_position s.board tr tc = false ∨ (getCell s.board fr fc).length < n ∨
      check_move fr fc tr tc n = false ∨
      (getCell s.board fr fc ≠ [] ∧ (getCell s.board fr fc).getLast? ≠ some p.piece)) :
    move_piece s name (fr, fc) (tr, tc) n = some (s, MoveOut.rejected) := by
  rw [move_piece, hp]
  simp only
  by_cases h1 : some name ≠ s.playerTurn
  · rw [if_pos h1]
  · rw [if_neg h1]
    by_cases h2 : !(check_position s.board fr fc) || !(check_position s.board tr tc)
    · rw [if_pos h2]
    · rw [if_neg h2]
      by_cases h3 : (getCell s.board fr fc).length < n
      · rw [if_pos h3]
      · rw [if_neg h3]
        by_cases h4 : !(check_move fr fc tr tc n)
        · rw [if_pos h4]
        · rw [if_neg h4]
          push_neg at h1
          simp only [Bool.or_eq_true, Bool.not_eq_true', not_or, Bool.not_eq_false] at h2
          simp only [Bool.not_eq_true', Bool.not_eq_false] at h4
          rcases hfail with hf | hf | hf | hf | hf | hf
          · exact absurd h1.symm hf
          · simp [hf] at h2
          · simp [hf] at h2
          · omega
          · rw [hf] at h4; cases h4
          · obtain ⟨hne, htop⟩ := hf
            cases hgl : (getCell s.board fr fc).getLast? with
            | none =>
              have := List.getLast?_isSome.mpr hne
              rw [hgl] at this
              cases this
            | some t =>
              simp only [display_top]
              rw [hgl]
              simp only
              rw [if_pos (show p.piece ≠ t from fun hh => htop (by rw [hgl, hh]))]

theorem reserved_move_isSome (s : GameState) (name : String) (pos : Nat × Nat) (p : Player)
    (hp : getPlayer s name = some p) : ∃ out, reserved_move s name pos = some out := by
  obtain ⟨row, column⟩ := pos
  rw [reserved_move, hp]
  simp only
  by_cases h1 : some name ≠ s.playerTurn
  · exact ⟨_, by rw [if_pos h1]⟩
  · rw [if_neg h1]
    by_cases h2 : p.reserve ≤ 0
    · exact ⟨_, by rw [if_pos h2]⟩
    · rw [if_neg h2]
      by_cases h3 : !(check_position s.board row column)
      · exact ⟨_, by rw [if_pos h3]⟩
      · exact ⟨_, by rw [if_neg h3]⟩

theorem move_piece_isSome (s : GameState) (name : String) (fr fc tr tc n : Nat) (p : Player)
    (hp : getPlayer s name = some p) (hn : 1 ≤ n) :
    ∃ out, move_piece s name (fr, fc) (tr, tc) n = some out := by
  rw [move_piece, hp]
  simp only
  by_cases h1 : some name ≠ s.playerTurn
  · exact ⟨_, by rw [if_pos h1]⟩
  · rw [if_neg h1]
    by_cases h2 : !(check_position s.board fr fc) || !(check_position s.board tr tc)
    · exact ⟨_, by rw [if_pos h2]⟩
    · rw [if_neg h2]
      by_cases h3 : (getCell s.board fr fc).length < n
      · exact ⟨_, by rw [if_pos h3]⟩
      · rw [if_neg h3]
        by_cases h4 : !(check_move fr fc tr tc n)
        · exact ⟨_, by rw [if_pos h4]⟩
        · rw [if_neg h4]
          have hne : getCell s.board fr fc ≠ [] := by
            intro hnil
            rw [hnil] at h3
            simp at h3
            omega
          cases hgl : (getCell s.board fr fc).getLast? with
          | none =>
            have := List.getLast?_isSome.mpr hne
            rw [hgl] at this
            cases this
          | some t =>
            simp only [display_top]
            rw [hgl]
            simp only
            by_cases h5 : p.piece ≠ t
            · exact ⟨_, by rw [if_pos h5]⟩
            · exact ⟨_, by rw [if_neg h5]⟩

/-! ### Claim theorems, first batch -/

def exGame : GameState := initGame ("A", "R") ("B", "G")

/-- C1: after a piece lands, a stack longer than `MAX_HEIGHT` (5) loses exactly
its bottom `length - 5` pieces (so its final length is 5), and each removed
piece increments the acting player's reserve when it carries the acting
player's symbol and the acting player's captured count otherwise, in
bottom-to-top removal order. -/
theorem stack_height_reduction_rule (piece : Piece) (stack : Cell) (res cap : Nat)
    (h : MAX_HEIGHT < stack.length) :
    remove_pieces piece stack res cap =
      (stack.drop (stack.length - MAX_HEIGHT),
       res + (stack.take (stack.length - MAX_HEIGHT)).countP (fun x => x == piece),
       cap + (stack.take (stack.length - MAX_HEIGHT)).countP (fun x => !(x == piece))) ∧
    (remove_pieces piece stack res cap).1.length = MAX_HEIGHT := by
  refine ⟨remove_pieces_spec piece stack res cap, ?_⟩
  rw [remove_pieces_length]
  simp only [MAX_HEIGHT] at h ⊢
  omega

theorem stack_height_reduction_rule_witness :
    MAX_HEIGHT < ([("G" : Piece), "R", "G", "R", "R", "G", "R"].length) ∧
    (remove_pieces "R" ["G", "R", "G", "R", "R", "G", "R"] 2 3 =
      (["G", "R", "R", "G", "R"], 3, 4) ∧
     (remove_pieces "R" ["G", "R", "G", "R", "R", "G", "R"] 2 3).1.length = MAX_HEIGHT) := by
  refine ⟨by decide, ?_, ?_⟩
  · have := (stack_height_reduction_rule "R" ["G", "R", "G", "R", "R", "G", "R"] 2 3
      (by decide)).1
    rw [this]
    decide
  · exact (stack_height_reduction_rule "R" ["G", "R", "G", "R", "R", "G", "R"] 2 3
      (by decide)).2

/-- C6: whenever `reserved_move` or `move_piece` signals a rejection the state
is returned unchanged, and whenever any of the listed preconditions fails
(given a resolvable player name) the call signals a rejection with the
unchanged state: no board cell, no counter and no turn state is modified. -/
theorem rejection_atomicity :
    (∀ s name pos s₁, reserved_move s name pos = some (s₁, false) → s₁ = s) ∧
    (∀ s name frm oto n s₁,
      move_piece s name frm oto n = some (s₁, MoveOut.rejected) → s₁ = s) ∧
    (∀ s name row column p, getPlayer s name = some p →
      (s.playerTurn ≠ some name ∨ p.reserve = 0 ∨
        check_position s.board row column = false) →
      reserved_move s name (row, column) = some (s, false)) ∧
    (∀ s name fr fc tr tc n p, getPlayer s name = some p →
      (s.playerTurn ≠ some name ∨ check_position s.board fr fc = false ∨
        check_position s.board tr tc = false ∨ (getCell s.board fr fc).length < n ∨
        check_move fr fc tr tc n = false ∨
        (getCell s.board fr fc ≠ [] ∧ (getCell s.board fr fc).getLast? ≠ some p.piece)) →
      move_piece s name (fr, fc) (tr, tc) n = some (s, MoveOut.rejected)) := by
  refine ⟨?_, ?_, ?_, ?_⟩
  · intro s name pos s₁ h
    exact reserved_move_false_inv s name pos s₁ h
  · intro s name frm oto n s₁ h
    exact move_piece_rejected_inv s name frm oto n s₁ h
  · intro s name row column p hp hfail
    exact reserved_move_rejects s name row column p hp hfail
  · intro s name fr fc tr tc n p hp hfail
    exact move_piece_rejects s name fr fc tr tc n p hp hfail

theorem rejection_atomicity_witness :
    reserved_move exGame "B" (0, 0) = some (exGame, false) ∧
    move_piece exGame "A" (0, 0) (3, 3) 1 = some (exGame, MoveOut.rejected) := by
  constructor
  · exact rejection_atomicity.2.2.1 exGame "B" 0 0
      { name := "B", piece := "G", reserve := 0, captured := 0 } (by decide)
      (Or.inl (by decide))
  · exact rejection_atomicity.2.2.2 exGame "A" 0 0 3 3 1
      { name := "A", piece := "R", reserve := 0, captured := 0 } (by decide)
      (Or.inr (Or.inr (Or.inr (Or.inr (Or.inl (by decide))))))

theorem check_move_iff (a b c d n : Nat) :
    check_move a b c d n = true ↔
      ((a = c ∧ ((b : Int) - d).natAbs = n) ∨ (b = d ∧ ((a : Int) - c).natAbs = n)) := by
  simp [check_move]

/-- C3 counterexample: a `count = 0` "move" from a cell onto itself is accepted
by the engine (the player controls the top of the stack, `|delta| = 0 = count`
passes `check_move`), and it changes the state: the turn switches. The claim
says every `count = 0` move is rejected with no state change. -/
theorem move_geometry_counterexample :
    move_piece exGame "A" (0, 0) (0, 0) 0 =
      some ({ exGame with playerTurn := some "B" }, MoveOut.moved) ∧
    ({ exGame with playerTurn := some "B" } : GameState) ≠ exGame := by
  constructor
  · decide
  · decide

/-- C3 amended: a move is accepted only if it is a straight horizontal or
vertical line of exactly `count` cells (same row with `|delta column| = count`,
or same column with `|delta row| = count`); every move whose geometry violates
this — diagonal moves and wrong-distance moves — is rejected with no state
change. (The original claim's further assertion that `count = 0` is always
rejected is false: a `count = 0` self-move satisfies the geometry check and is
accepted, switching the turn — see the counterexample.) -/
theorem move_geometry_amended :
    (∀ s name fr fc tr tc n s' r,
      move_piece s name (fr, fc) (tr, tc) n = some (s', r) → r ≠ MoveOut.rejected →
      ((fr = tr ∧ ((fc : Int) - tc).natAbs = n) ∨ (fc = tc ∧ ((fr : Int) - tr).natAbs = n))) ∧
    (∀ s name fr fc tr tc n s' r,
      move_piece s name (fr, fc) (tr, tc) n = some (s', r) →
      ¬((fr = tr ∧ ((fc : Int) - tc).natAbs = n) ∨ (fc = tc ∧ ((fr : Int) - tr).natAbs = n)) →
      r = MoveOut.rejected ∧ s' = s) := by
  constructor
  · intro s name fr fc tr tc n s' r h hr
    obtain ⟨p, _, _, _, _, _, hgeom, _, _⟩ := move_piece_success_inv s name fr fc tr tc n s' r h hr
    exact (check_move_iff fr fc tr tc n).mp hgeom
  · intro s name fr fc tr tc n s' r h hgeom
    by_cases hr : r = MoveOut.rejected
    · subst hr
      exact ⟨rfl, move_piece_rejected_inv s name (fr, fc) (tr, tc) n s' h⟩
    · obtain ⟨p, _, _, _, _, _, hgm, _, _⟩ := move_piece_success_inv s name fr fc tr tc n s' r h hr
      exact absurd ((check_move_iff fr fc tr tc n).mp hgm) hgeom

theorem move_geometry_amended_witness :
    MoveOut.rejected = MoveOut.rejected ∧ exGame = exGame :=
  move_geometry_amended.2 exGame "A" 0 0 1 1 1 exGame MoveOut.rejected
    (by decide) (by decide)

/-- C9: a newly constructed engine has the 36 singleton stacks in the
checkerboard-diagonal two-symbol pattern of §6 (rows alternating
`R R G G R R` / `G G R R G G`, the source's two markers), both players'
counters at zero, and the turn on the first-constructed player's name, so any
move attempt by the (differently named) second player is rejected unchanged. -/
theorem initial_state_spec :
    ∀ a b : String × Piece,
      (initGame a b).board =
        [[["R"], ["R"], ["G"], ["G"], ["R"], ["R"]],
         [["G"], ["G"], ["R"], ["R"], ["G"], ["G"]],
         [["R"], ["R"], ["G"], ["G"], ["R"], ["R"]],
         [["G"], ["G"], ["R"], ["R"], ["G"], ["G"]],
         [["R"], ["R"], ["G"], ["G"], ["R"], ["R"]],
         [["G"], ["G"], ["R"], ["R"], ["G"], ["G"]]] ∧
      (∀ row ∈ (initGame a b).board, ∀ cell ∈ row, cell.length = 1) ∧
      (initGame a b).firstPlayer.reserve = 0 ∧ (initGame a b).firstPlayer.captured = 0 ∧
      (initGame a b).secondPlayer.reserve = 0 ∧ (initGame a b).secondPlayer.captured = 0 ∧
      (initGame a b).playerTurn = some a.1 ∧
      (a.1 ≠ b.1 → ∀ frm oto n,
        move_piece (initGame a b) b.1 frm oto n = some (initGame a b, MoveOut.rejected) ∧
        reserved_move (initGame a b) b.1 frm = some (initGame a b, false)) := by
  intro a b
  refine ⟨rfl, by simp only [initGame]; decide, rfl, rfl, rfl, rfl, rfl, ?_⟩
  intro hne frm oto n
  obtain ⟨fr, fc⟩ := frm
  obtain ⟨tr, tc⟩ := oto
  have hgp : getPlayer (initGame a b) b.1 = some ((initGame a b).secondPlayer) := by
    simp [getPlayer, initGame]
  have hturn : (initGame a b).playerTurn ≠ some b.1 := by
    intro hh
    apply hne
    have h2 : some a.1 = some b.1 := hh
    injection h2
  constructor
  · exact move_piece_rejects _ _ _ _ _ _ _ _ hgp (Or.inl hturn)
  · exact reserved_move_rejects _ _ _ _ _ hgp (Or.inl hturn)

theorem initial_state_spec_witness :
    move_piece (initGame ("A", "R") ("B", "G")) "B" (2, 3) (2, 4) 1 =
      some (initGame ("A", "R") ("B", "G"), MoveOut.rejected) :=
  ((initial_state_spec ("A", "R") ("B", "G")).2.2.2.2.2.2.2 (by decide) (2, 3) (2, 4) 1).1

/-- C7 counterexample: with players named `A` and `B`, calling `reserved_move`
or `move_piece` with the unknown name `Charlie` raises (the dictionary lookup
`self._players[player_name]` happens before any check, modelled `none`) instead
of returning a failure value, and `show_pieces` at the out-of-bounds position
`(6, 0)` raises instead of answering. -/
theorem failure_reporting_counterexample :
    reserved_move exGame "Charlie" (0, 0) = none ∧
    move_piece exGame "Charlie" (0, 0) (0, 1) 1 = none ∧
    show_pieces exGame (6, 0) = none := by
  refine ⟨by decide, by decide, by decide⟩

/-- C7 amended: for every input whose player name resolves to one of the two
players, `reserved_move` returns a value rather than raising, and so does
`move_piece` whenever additionally `count ≥ 1`; `show_reserve` and
`show_captured` return 0 for an unknown name; `show_pieces` returns a value on
in-bounds positions. (Unknown player names raise `KeyError` in both move
operations, and `show_pieces` raises `IndexError` out of bounds — see the
counterexample.) -/
theorem failure_reporting_amended :
    (∀ s name pos p, getPlayer s name = some p →
      ∃ out, reserved_move s name pos = some out) ∧
    (∀ s name frm oto n p, getPlayer s name = some p → 1 ≤ n →
      ∃ out, move_piece s name frm oto n = some out) ∧
    (∀ s name, getPlayer s name = none →
      show_reserve s name = 0 ∧ show_captured s name = 0) ∧
    (∀ s row column, row < s.board.length → column < (s.board.getD row []).length →
      ∃ out, show_pieces s (row, column) = some out) := by
  refine ⟨?_, ?_, ?_, ?_⟩
  · intro s name pos p hp
    exact reserved_move_isSome s name pos p hp
  · intro s name frm oto n p hp hn
    obtain ⟨fr, fc⟩ := frm
    obtain ⟨tr, tc⟩ := oto
    exact move_piece_isSome s name fr fc tr tc n p hp hn
  · intro s name hnone
    constructor
    · rw [show_reserve, hnone]
    · rw [show_captured, hnone]
  · intro s row column hr hc
    refine ⟨(s.board.getD row []).getD column [], ?_⟩
    rw [show_pieces]
    have h1 : s.board.get? row = some (s.board.getD row []) := by
      rw [List.get?_eq_getElem?, List.getElem?_eq_getElem hr, List.getD_eq_getElem _ _ hr]
    rw [h1]
    simp only
    rw [List.get?_eq_getElem?, List.getElem?_eq_getElem hc, List.getD_eq_getElem _ _ hc]

theorem failure_reporting_amended_witness :
    (∃ out, reserved_move exGame "A" (0, 0) = some out) ∧
    (∃ out, move_piece exGame "A" (0, 0) (0, 1) 1 = some out) ∧
    (show_reserve exGame "Zed" = 0 ∧ show_captured exGame "Zed" = 0) ∧
    (∃ out, show_pieces exGame (0, 0) = some out) :=
  ⟨failure_reporting_amended.1 exGame "A" (0, 0)
      { name := "A", piece := "R", reserve := 0, captured := 0 } (by decide),
   failure_reporting_amended.2.1 exGame "A" (0, 0) (0, 1) 1
      { name := "A", piece := "R", reserve := 0, captured := 0 } (by decide) (by decide),
   failure_reporting_amended.2.2.1 exGame "Zed" (by decide),
   failure_reporting_amended.2.2.2 exGame 0 0 (by decide) (by decide)⟩

/-! ### Commit-phase characterizations -/

theorem getPlayer_switch_turns (s : GameState) (name : String) :
    getPlayer (switch_turns s) name = getPlayer s name := by
  unfold switch_turns
  split <;> rfl

theorem getPlayer_board_irrel (s : GameState) (b : Board) (name : String) :
    getPlayer { s with board := b } name = getPlayer s name := rfl

theorem setPlayer_names (s : GameState) (name : String) (p p' : Player)
    (hp : getPlayer s name = some p) (hname : p'.name = p.name) :
    (setPlayer s name p').firstPlayer.name = s.firstPlayer.name ∧
    (setPlayer s name p').secondPlayer.name = s.secondPlayer.name := by
  unfold getPlayer setPlayer at *
  split at hp
  · injection hp with hp; simp_all
  · split at hp
    · injection hp with hp; simp_all
    · cases hp

theorem setPlayer_counter_sum (s : GameState) (name : String) (p p' : Player)
    (hp : getPlayer s name = some p) :
    (setPlayer s name p').firstPlayer.reserve + (setPlayer s name p').firstPlayer.captured +
      (setPlayer s name p').secondPlayer.reserve + (setPlayer s name p').secondPlayer.captured
      + p.reserve + p.captured
    = s.firstPlayer.reserve + s.firstPlayer.captured + s.secondPlayer.reserve +
      s.secondPlayer.captured + p'.reserve + p'.captured := by
  unfold getPlayer setPlayer at *
  split at hp
  · injection hp with hp; simp_all; omega
  · split at hp
    · injection hp with hp; simp_all; omega
    · cases hp

theorem remove_reserved_pos (p : Player) (h : 0 < p.reserve) :
    p.remove_reserved = { p with reserve := p.reserve - 1 } := by
  unfold Player.remove_reserved
  rw [if_pos h]

theorem reserved_move_commit_props (s : GameState) (name : String) (p : Player)
    (row column : Nat) (hp : getPlayer s name = some p) (hres : 0 < p.reserve) :
    (reserved_move_commit s name p row column).board =
      setCell s.board row column
        (remove_pieces p.piece (enqueue (getCell s.board row column) p.piece)
          (p.reserve - 1) p.captured).1 ∧
    getPlayer (reserved_move_commit s name p row column) name =
      some { p with
        reserve := (remove_pieces p.piece (enqueue (getCell s.board row column) p.piece)
          (p.reserve - 1) p.captured).2.1,
        captured := (remove_pieces p.piece (enqueue (getCell s.board row column) p.piece)
          (p.reserve - 1) p.captured).2.2 } ∧
    (reserved_move_commit s name p row column).playerTurn =
      (if s.playerTurn = some s.firstPlayer.name
       then some s.secondPlayer.name else some s.firstPlayer.name) ∧
    (reserved_move_commit s name p row column).firstPlayer.name = s.firstPlayer.name ∧
    (reserved_move_commit s name p row column).secondPlayer.name = s.secondPlayer.name ∧
    (reserved_move_commit s name p row column).firstPlayer.reserve +
        (reserved_move_commit s name p row column).firstPlayer.captured +
        (reserved_move_commit s name p row column).secondPlayer.reserve +
        (reserved_move_commit s name p row column).secondPlayer.captured +
        p.reserve + p.captured
      = s.firstPlayer.reserve + s.firstPlayer.captured + s.secondPlayer.reserve +
        s.secondPlayer.captured +
        (remove_pieces p.piece (enqueue (getCell s.board row column) p.piece)
          (p.reserve - 1) p.captured).2.1 +
        (remove_pieces p.piece (enqueue (getCell s.board row column) p.piece)
          (p.reserve - 1) p.captured).2.2 := by
  rw [reserved_move_commit]
  rw [remove_reserved_pos p hres]
  set stack1 := enqueue (getCell s.board row column) p.piece with hstack1
  set rpc := remove_pieces p.piece stack1 (p.reserve - 1) p.captured with hrpc
  set p2 : Player := { p with reserve := rpc.2.1, captured := rpc.2.2 } with hp2
  set sb : GameState := { s with board := setCell s.board row column rpc.1 } with hsb
  have hpb : getPlayer sb name = some p := hp
  have hnames := setPlayer_names sb name p p2 hpb rfl
  have hcsum := setPlayer_counter_sum sb name p p2 hpb
  refine ⟨?_, ?_, ?_, ?_, ?_, ?_⟩
  · rw [switch_turns_board, setPlayer_board]
  · rw [getPlayer_switch_turns]
    exact getPlayer_setPlayer_self sb name p p2 hpb rfl
  · rw [switch_turns_turn, setPlayer_turn, hnames.1, hnames.2]
  · rw [(switch_turns_players _).1, hnames.1]
  · rw [(switch_turns_players _).2, hnames.2]
  · rw [(switch_turns_players _).1, (switch_turns_players _).2]
    exact hcsum

theorem move_piece_commit_props (s : GameState) (name : String) (p : Player)
    (fr fc tr tc n : Nat) (hp : getPlayer s name = some p) :
    let mr := remove_items (getCell s.board fr fc) n
    let b1 := setCell s.board fr fc mr.2
    let rpc := remove_pieces p.piece (getCell b1 tr tc ++ mr.1) p.reserve p.captured
    let b2 := setCell b1 tr tc rpc.1
    let p2 : Player := { p with reserve := rpc.2.1, captured := rpc.2.2 }
    let out := move_piece_commit s name p fr fc tr tc n
    out.1.board = b2 ∧
    getPlayer out.1 name = some p2 ∧
    (out.2 = MoveOut.wins ↔ check_win b2 p2 = true) ∧
    (out.2 = MoveOut.wins → out.1.playerTurn = none) ∧
    (out.2 = MoveOut.moved → out.1.playerTurn =
      (if s.playerTurn = some s.firstPlayer.name
       then some s.secondPlayer.name else some s.firstPlayer.name)) ∧
    out.2 ≠ MoveOut.rejected ∧
    out.1.firstPlayer.name = s.firstPlayer.name ∧
    out.1.secondPlayer.name = s.secondPlayer.name ∧
    out.1.firstPlayer.reserve + out.1.firstPlayer.captured +
        out.1.secondPlayer.reserve + out.1.secondPlayer.captured + p.reserve + p.captured
      = s.firstPlayer.reserve + s.firstPlayer.captured + s.secondPlayer.reserve +
        s.secondPlayer.captured + rpc.2.1 + rpc.2.2 := by
  intro mr b1 rpc b2 p2 out
  have hout : out = (
      let s1 := switch_turns (setPlayer { s with board := b2 } name p2)
      if check_win s1.board p2 then ({ s1 with playerTurn := none }, MoveOut.wins)
      else (s1, MoveOut.moved)) := rfl
  set sb : GameState := { s with board := b2 } with hsb
  have hpb : getPlayer sb name = some p := hp
  have hnames := setPlayer_names sb name p p2 hpb rfl
  have hcsum := setPlayer_counter_sum sb name p p2 hpb
  set s1 := switch_turns (setPlayer sb name p2) with hs1
  have hb1 : s1.board = b2 := by rw [hs1, switch_turns_board, setPlayer_board]
  have hgp1 : getPlayer s1 name = some p2 := by
    rw [hs1, getPlayer_switch_turns]
    exact getPlayer_setPlayer_self sb name p p2 hpb rfl
  have hturn1 : s1.playerTurn =
      (if s.playerTurn = some s.firstPlayer.name
       then some s.secondPlayer.name else some s.firstPlayer.name) := by
    rw [hs1, switch_turns_turn, setPlayer_turn, hnames.1, hnames.2]
  have hf1 : s1.firstPlayer = (setPlayer sb name p2).firstPlayer := (switch_turns_players _).1
  have hs2 : s1.secondPlayer = (setPlayer sb name p2).secondPlayer := (switch_turns_players _).2
  by_cases hwin : check_win s1.board p2 = true
  · have houtW : out = ({ s1 with playerTurn := none }, MoveOut.wins) := by
      rw [hout]
      exact if_pos hwin
    rw [hb1] at hwin
    rw [houtW]
    refine ⟨hb1, hgp1, ⟨fun _ => hwin, fun _ => rfl⟩, fun _ => rfl, ?_, ?_, ?_, ?_, ?_⟩
    · intro hh; cases hh
    · intro hh; cases hh
    · show s1.firstPlayer.name = s.firstPlayer.name
      rw [hf1]; exact hnames.1
    · show s1.secondPlayer.name = s.secondPlayer.name
      rw [hs2]; exact hnames.2
    · show s1.firstPlayer.reserve + s1.firstPlayer.captured + s1.secondPlayer.reserve +
        s1.secondPlayer.captured + p.reserve + p.captured = _
      rw [hf1, hs2]; exact hcsum
  · have hwinF : check_win s1.board p2 = false := by
      cases hcw : check_win s1.board p2
      · rfl
      · exact absurd hcw hwin
    have houtM : out = (s1, MoveOut.moved) := by
      rw [hout]
      exact if_neg (by rw [hwinF]; exact Bool.false_ne_true)
    rw [hb1] at hwinF
    rw [houtM]
    refine ⟨hb1, hgp1, ?_, ?_, fun _ => hturn1, ?_, ?_, ?_, ?_⟩
    · constructor
      · intro hh; cases hh
      · intro hh; rw [hwinF] at hh; cases hh
    · intro hh; cases hh
    · intro hh; cases hh
    · show s1.firstPlayer.name = s.firstPlayer.name
      rw [hf1]; exact hnames.1
    · show s1.secondPlayer.name = s.secondPlayer.name
      rw [hs2]; exact hnames.2
    · show s1.firstPlayer.reserve + s1.firstPlayer.captured + s1.secondPlayer.reserve +
        s1.secondPlayer.captured + p.reserve + p.captured = _
      rw [hf1, hs2]; exact hcsum

/-! ### Conservation of pieces -/

theorem wf_init (a b : String × Piece) : WF (initGame a b) := by
  refine ⟨rfl, ?_⟩
  simp only [initGame]
  decide

theorem total_init (a b : String × Piece) : total (initGame a b) = 36 := by
  simp only [total, initGame, boardCount]
  decide

theorem conservation_arith_reserve
    (bcSet bc cellLen enqLen rLen rres rcap pres pcap A1 A2 A3 A4 S1 S2 S3 S4 : Nat)
    (hbc : bcSet + cellLen = bc + rLen)
    (hrt : rLen + rres + rcap = enqLen + (pres - 1) + pcap)
    (henq : enqLen = cellLen + 1)
    (hcsum : A1 + A2 + A3 + A4 + pres + pcap = S1 + S2 + S3 + S4 + rres + rcap)
    (ht : bc + S1 + S2 + S3 + S4 = 36)
    (hres : 0 < pres) :
    bcSet + A1 + A2 + A3 + A4 = 36 := by
  omega

theorem conservation_arith_move
    (bc bc1 bc2 FLen T1Len mr1Len mr2Len landLen rLen rres rcap pres pcap
      A1 A2 A3 A4 S1 S2 S3 S4 : Nat)
    (hbc1 : bc1 + FLen = bc + mr2Len)
    (hbc2 : bc2 + T1Len = bc1 + rLen)
    (hrt : rLen + rres + rcap = landLen + pres + pcap)
    (hland : landLen = T1Len + mr1Len)
    (hsplit : mr2Len + mr1Len = FLen)
    (hcsum : A1 + A2 + A3 + A4 + pres + pcap = S1 + S2 + S3 + S4 + rres + rcap)
    (ht : bc + S1 + S2 + S3 + S4 = 36) :
    bc2 + A1 + A2 + A3 + A4 = 36 := by
  omega

theorem reserved_move_preserves (s : GameState) (name : String) (pos : Nat × Nat)
    (s₁ : GameState) (b : Bool) (hwf : WF s) (ht : total s = 36)
    (h : reserved_move s name pos = some (s₁, b)) : WF s₁ ∧ total s₁ = 36 := by
  cases b with
  | false =>
    rw [reserved_move_false_inv s name pos s₁ h]
    exact ⟨hwf, ht⟩
  | true =>
    obtain ⟨row, column⟩ := pos
    obtain ⟨p, hgp, hturn, hres, hpos, hcommit⟩ := reserved_move_true_inv s name row column s₁ h
    obtain ⟨hboard, hgp', hturnout, hfn, hsn, hcsum⟩ :=
      reserved_move_commit_props s name p row column hgp hres
    rw [← hcommit] at hboard hcsum
    have hrt := remove_pieces_total p.piece (enqueue (getCell s.board row column) p.piece)
      (p.reserve - 1) p.captured
    generalize hrpc : remove_pieces p.piece (enqueue (getCell s.board row column) p.piece)
      (p.reserve - 1) p.captured = rpc at hboard hcsum hrt
    obtain ⟨rstack, rres, rcap⟩ := rpc
    simp only at hboard hcsum hrt
    have hrow : row < s.board.length := by
      have := hpos
      simp [check_position] at this
      exact this.1
    have hcol6 : column < s.board.length := by
      have := hpos
      simp [check_position] at this
      exact this.2
    have hrowlen : (s.board.getD row []).length = 6 :=
      hwf.2 _ (list_getD_mem _ _ _ hrow)
    have hcol : column < (s.board.getD row []).length := by
      rw [hrowlen]
      have h6 := hwf.1
      omega
    have hwfb := wf_board_setCell s.board row column rstack hwf.1 hwf.2 hrow
    refine ⟨⟨by rw [hboard]; exact hwfb.1, by rw [hboard]; exact hwfb.2⟩, ?_⟩
    have hbc := boardCount_setCell s.board row column rstack hrow hcol
    have hstack1len : (enqueue (getCell s.board row column) p.piece).length =
        (getCell s.board row column).length + 1 := by
      simp [enqueue]
    unfold total at ht ⊢
    rw [hboard]
    exact conservation_arith_reserve _ _ _ _ _ _ _ _ _ _ _ _ _ _ _ _ _
      hbc hrt hstack1len hcsum ht hres

theorem move_piece_preserves (s : GameState) (name : String) (frm oto : Nat × Nat)
    (n : Nat) (s₁ : GameState) (r : MoveOut) (hwf : WF s) (ht : total s = 36)
    (h : move_piece s name frm oto n = some (s₁, r)) : WF s₁ ∧ total s₁ = 36 := by
  obtain ⟨fr, fc⟩ := frm
  obtain ⟨tr, tc⟩ := oto
  by_cases hr : r = MoveOut.rejected
  · subst hr
    rw [move_piece_rejected_inv s name (fr, fc) (tr, tc) n s₁ h]
    exact ⟨hwf, ht⟩
  · obtain ⟨p, hgp, hturn, hpos1, hpos2, hlen, hgeom, htop, hcommit⟩ :=
      move_piece_success_inv s name fr fc tr tc n s₁ r h hr
    obtain ⟨hboard, hgp', hiff, hwinturn, hmovturn, hnr, hfn, hsn, hcsum⟩ :=
      move_piece_commit_props s name p fr fc tr tc n hgp
    have hs1 : s₁ = (move_piece_commit s name p fr fc tr tc n).1 := by rw [← hcommit]
    rw [← hs1] at hboard hcsum
    have hrt := remove_pieces_total p.piece
      (getCell (setCell s.board fr fc (remove_items (getCell s.board fr fc) n).2) tr tc ++
        (remove_items (getCell s.board fr fc) n).1) p.reserve p.captured
    generalize hrpc : remove_pieces p.piece
      (getCell (setCell s.board fr fc (remove_items (getCell s.board fr fc) n).2) tr tc ++
        (remove_items (getCell s.board fr fc) n).1) p.reserve p.captured = rpc
      at hboard hcsum hrt
    obtain ⟨rstack, rres, rcap⟩ := rpc
    simp only at hboard hcsum hrt
    have hfr : fr < s.board.length := by
      have := hpos1
      simp [check_position] at this
      exact this.1
    have htr : tr < s.board.length := by
      have := hpos2
      simp [check_position] at this
      exact this.1
    have htc6 : tc < s.board.length := by
      have := hpos2
      simp [check_position] at this
      exact this.2
    have hfc : fc < (s.board.getD fr []).length := by
      rw [hwf.2 _ (list_getD_mem _ _ _ hfr)]
      have h6 := hwf.1
      have := hpos1
      simp [check_position] at this
      omega
    have hwfb1 := wf_board_setCell s.board fr fc (remove_items (getCell s.board fr fc) n).2
      hwf.1 hwf.2 hfr
    have htrb1 : tr < (setCell s.board fr fc (remove_items (getCell s.board fr fc) n).2).length := by
      rw [length_setCell]
      exact htr
    have htc : tc <
        ((setCell s.board fr fc (remove_items (getCell s.board fr fc) n).2).getD tr []).length := by
      rw [hwfb1.2 _ (list_getD_mem _ _ _ htrb1)]
      have h6 := hwf.1
      omega
    have hwfb2 := wf_board_setCell _ tr tc rstack hwfb1.1 hwfb1.2 htrb1
    refine ⟨⟨by rw [hboard]; exact hwfb2.1, by rw [hboard]; exact hwfb2.2⟩, ?_⟩
    have hbc1 := boardCount_setCell s.board fr fc (remove_items (getCell s.board fr fc) n).2 hfr hfc
    have hbc2 := boardCount_setCell
      (setCell s.board fr fc (remove_items (getCell s.board fr fc) n).2) tr tc rstack htrb1 htc
    have hlandlen :
        (getCell (setCell s.board fr fc (remove_items (getCell s.board fr fc) n).2) tr tc ++
          (remove_items (getCell s.board fr fc) n).1).length =
        (getCell (setCell s.board fr fc (remove_items (getCell s.board fr fc) n).2) tr tc).length +
          (remove_items (getCell s.board fr fc) n).1.length := List.length_append _ _
    have hsplit : (remove_items (getCell s.board fr fc) n).2.length +
        (remove_items (getCell s.board fr fc) n).1.length =
        (getCell s.board fr fc).length := by
      have happ := remove_items_append (getCell s.board fr fc) n
      have hl := congrArg List.length happ
      rw [List.length_append] at hl
      exact hl
    unfold total at ht ⊢
    rw [hboard]
    exact conservation_arith_move _ _ _ _ _ _ _ _ _ _ _ _ _ _ _ _ _ _ _ _ _
      hbc1 hbc2 hrt hlandlen hsplit hcsum ht

/-- C10: piece conservation. In every state reachable from a fresh game by any
sequence of `reserved_move` and `move_piece` calls, the pieces on the board
plus both players' reserve and captured counters add up to 36: the operations
only ever transfer pieces between the board and the two counters. -/
theorem piece_conservation (a b : String × Piece) (ops : List Op) :
    total (List.foldl applyOp (initGame a b) ops) = 36 := by
  suffices h : ∀ (l : List Op) (s : GameState), WF s → total s = 36 →
      WF (List.foldl applyOp s l) ∧ total (List.foldl applyOp s l) = 36 by
    exact (h ops (initGame a b) (wf_init a b) (total_init a b)).2
  intro l
  induction l with
  | nil => exact fun s hwf ht => ⟨hwf, ht⟩
  | cons o t ih =>
    intro s hwf ht
    have hstep : WF (applyOp s o) ∧ total (applyOp s o) = 36 := by
      cases o with
      | reserve nm pos =>
        simp only [applyOp]
        cases hrm : reserved_move s nm pos with
        | none => exact ⟨hwf, ht⟩
        | some out =>
          obtain ⟨s₂, bb⟩ := out
          exact reserved_move_preserves s nm pos s₂ bb hwf ht hrm
      | move nm frm oto nn =>
        simp only [applyOp]
        cases hrm : move_piece s nm frm oto nn with
        | none => exact ⟨hwf, ht⟩
        | some out =>
          obtain ⟨s₂, rr⟩ := out
          exact move_piece_preserves s nm frm oto nn s₂ rr hwf ht hrm
    rw [List.foldl_cons]
    exact ih (applyOp s o) hstep.1 hstep.2

/-- A hand-built mid-game position: player `A` has captured 18 pieces, 18 `R`
pieces remain on the board (non-empty cells all show `R` on top), and it is
`A`'s turn. The totals respect piece conservation (18 + 18 = 36). -/
def winGame : GameState :=
  { board :=
      [[["R"], ["R"], ["R"], ["R"], ["R"], ["R"]],
       [["R"], ["R"], ["R"], ["R"], ["R"], ["R"]],
       [["R"], ["R"], ["R"], ["R"], ["R"], ["R"]],
       [[], [], [], [], [], []],
       [[], [], [], [], [], []],
       [[], [], [], [], [], []]],
    firstPlayer := { name := "A", piece := "R", reserve := 0, captured := 18 },
    secondPlayer := { name := "B", piece := "G", reserve := 0, captured := 0 },
    playerTurn := some "A" }

/-- The state after `A` moves one piece from `(0,0)` to `(0,1)` in `winGame`. -/
def winGameAfter : GameState :=
  { board :=
      [[[], ["R", "R"], ["R"], ["R"], ["R"], ["R"]],
       [["R"], ["R"], ["R"], ["R"], ["R"], ["R"]],
       [["R"], ["R"], ["R"], ["R"], ["R"], ["R"]],
       [[], [], [], [], [], []],
       [[], [], [], [], [], []],
       [[], [], [], [], [], []]],
    firstPlayer := { name := "A", piece := "R", reserve := 0, captured := 18 },
    secondPlayer := { name := "B", piece := "G", reserve := 0, captured := 0 },
    playerTurn := none }

/-- C8 counterexample: a successful (winning) `move_piece` does not hand the
turn to the other named player — it sets the turn state to the terminal
sentinel `none`, which names neither player. The claim that the turn switches
strictly between the two named players after every successful operation fails
on winning moves. -/
theorem turn_alternation_counterexample :
    move_piece winGame "A" (0, 0) (0, 1) 1 = some (winGameAfter, MoveOut.wins) ∧
    winGameAfter.playerTurn = none ∧
    winGameAfter.playerTurn ≠ some winGame.firstPlayer.name ∧
    winGameAfter.playerTurn ≠ some winGame.secondPlayer.name := by
  refine ⟨by decide, rfl, by decide, by decide⟩

/-- C8 amended: after every successful `reserved_move`, and after every
`move_piece` that completes without winning, the turn switches to the other
named player; a winning `move_piece` instead sets the turn to the terminal
sentinel `none`; after every rejected operation the turn state is unchanged. -/
theorem turn_alternation_amended :
    (∀ s name pos s', reserved_move s name pos = some (s', true) →
      s'.playerTurn = (if s.playerTurn = some s.firstPlayer.name
        then some s.secondPlayer.name else some s.firstPlayer.name)) ∧
    (∀ s name frm oto n s', move_piece s name frm oto n = some (s', MoveOut.moved) →
      s'.playerTurn = (if s.playerTurn = some s.firstPlayer.name
        then some s.secondPlayer.name else some s.firstPlayer.name)) ∧
    (∀ s name frm oto n s', move_piece s name frm oto n = some (s', MoveOut.wins) →
      s'.playerTurn = none) ∧
    (∀ s name pos s₁, reserved_move s name pos = some (s₁, false) →
      s₁.playerTurn = s.playerTurn) ∧
    (∀ s name frm oto n s₁, move_piece s name frm oto n = some (s₁, MoveOut.rejected) →
      s₁.playerTurn = s.playerTurn) := by
  refine ⟨?_, ?_, ?_, ?_, ?_⟩
  · intro s name pos s' h
    obtain ⟨row, column⟩ := pos
    obtain ⟨p, hgp, hturn, hres, hpos, hcommit⟩ := reserved_move_true_inv s name row column s' h
    obtain ⟨_, _, hturnout, _, _, _⟩ := reserved_move_commit_props s name p row column hgp hres
    rw [hcommit]
    exact hturnout
  · intro s name frm oto n s' h
    obtain ⟨fr, fc⟩ := frm
    obtain ⟨tr, tc⟩ := oto
    obtain ⟨p, hgp, _, _, _, _, _, _, hcommit⟩ :=
      move_piece_success_inv s name fr fc tr tc n s' MoveOut.moved h (by decide)
    obtain ⟨_, _, _, _, hmovturn, _, _, _, _⟩ := move_piece_commit_props s name p fr fc tr tc n hgp
    have hfst : s' = (move_piece_commit s name p fr fc tr tc n).1 := by rw [← hcommit]
    have hsnd : (move_piece_commit s name p fr fc tr tc n).2 = MoveOut.moved := by
      rw [← hcommit]
    rw [hfst]
    exact hmovturn hsnd
  · intro s name frm oto n s' h
    obtain ⟨fr, fc⟩ := frm
    obtain ⟨tr, tc⟩ := oto
    obtain ⟨p, hgp, _, _, _, _, _, _, hcommit⟩ :=
      move_piece_success_inv s name fr fc tr tc n s' MoveOut.wins h (by decide)
    obtain ⟨_, _, _, hwinturn, _, _, _, _, _⟩ := move_piece_commit_props s name p fr fc tr tc n hgp
    have hfst : s' = (move_piece_commit s name p fr fc tr tc n).1 := by rw [← hcommit]
    have hsnd : (move_piece_commit s name p fr fc tr tc n).2 = MoveOut.wins := by
      rw [← hcommit]
    rw [hfst]
    exact hwinturn hsnd
  · intro s name pos s₁ h
    rw [reserved_move_false_inv s name pos s₁ h]
  · intro s name frm oto n s₁ h
    rw [move_piece_rejected_inv s name frm oto n s₁ h]

theorem turn_alternation_amended_witness :
    winGameAfter.playerTurn = none ∧
    exGame.playerTurn = exGame.playerTurn :=
  ⟨turn_alternation_amended.2.2.1 winGame "A" (0, 0) (0, 1) 1 winGameAfter (by decide),
   turn_alternation_amended.2.2.2.2 exGame "A" (0, 0) (3, 3) 1 exGame (by decide)⟩

/-- C5: every completed `reserved_move(player, (row, column))` had the turn
held by that player, a positive reserve, and an in-bounds position; it pushes
the player's piece on top of the target stack (the stack then sheds from the
bottom if it exceeds `MAX_HEIGHT`), debits the reserve by exactly 1 (before
any shed pieces are credited back), and hands the turn to the other player. -/
theorem reserve_placement_spec (s : GameState) (name : String) (row column : Nat)
    (s' : GameState) (hwf : WF s)
    (h : reserved_move s name (row, column) = some (s', true)) :
    ∃ p, getPlayer s name = some p ∧
      s.playerTurn = some name ∧ 0 < p.reserve ∧ row < 6 ∧ column < 6 ∧
      getCell s'.board row column =
        (getCell s.board row column ++ [p.piece]).drop
          ((getCell s.board row column ++ [p.piece]).length - MAX_HEIGHT) ∧
      getPlayer s' name = some
        { p with
          reserve := p.reserve - 1 +
            ((getCell s.board row column ++ [p.piece]).take
              ((getCell s.board row column ++ [p.piece]).length - MAX_HEIGHT)).countP
              (fun x => x == p.piece),
          captured := p.captured +
            ((getCell s.board row column ++ [p.piece]).take
              ((getCell s.board row column ++ [p.piece]).length - MAX_HEIGHT)).countP
              (fun x => !(x == p.piece)) } ∧
      s'.playerTurn = (if name = s.firstPlayer.name
        then some s.secondPlayer.name else some s.firstPlayer.name) := by
  obtain ⟨p, hgp, hturn, hres, hpos, hcommit⟩ := reserved_move_true_inv s name row column s' h
  obtain ⟨hboard, hgp', hturnout, hfn, hsn, hcsum⟩ :=
    reserved_move_commit_props s name p row column hgp hres
  rw [← hcommit] at hboard hgp' hturnout
  have hrow : row < s.board.length := by
    have := hpos
    simp [check_position] at this
    exact this.1
  have hcol6 : column < s.board.length := by
    have := hpos
    simp [check_position] at this
    exact this.2
  have h6 := hwf.1
  have hcol : column < (s.board.getD row []).length := by
    rw [hwf.2 _ (list_getD_mem _ _ _ hrow)]
    omega
  refine ⟨p, hgp, hturn, hres, by omega, by omega, ?_, ?_, ?_⟩
  · rw [hboard, getCell_setCell_self s.board row column _ hrow hcol, remove_pieces_spec]
    simp [enqueue]
  · rw [hgp', remove_pieces_spec]
    simp [enqueue]
  · rw [hturnout, hturn]
    by_cases hname : name = s.firstPlayer.name
    · rw [if_pos (by rw [hname]), if_pos hname]
    · rw [if_neg (fun hh : some name = some s.firstPlayer.name =>
        hname (by injection hh)), if_neg hname]

def resGame : GameState :=
  { exGame with firstPlayer := { name := "A", piece := "R", reserve := 2, captured := 0 } }

def resGameAfter : GameState :=
  { board :=
      [[["R", "R"], ["R"], ["G"], ["G"], ["R"], ["R"]],
       [["G"], ["G"], ["R"], ["R"], ["G"], ["G"]],
       [["R"], ["R"], ["G"], ["G"], ["R"], ["R"]],
       [["G"], ["G"], ["R"], ["R"], ["G"], ["G"]],
       [["R"], ["R"], ["G"], ["G"], ["R"], ["R"]],
       [["G"], ["G"], ["R"], ["R"], ["G"], ["G"]]],
    firstPlayer := { name := "A", piece := "R", reserve := 1, captured := 0 },
    secondPlayer := { name := "B", piece := "G", reserve := 0, captured := 0 },
    playerTurn := some "B" }

theorem reserve_placement_spec_witness :
    WF resGame ∧
    (∃ p, getPlayer resGame "A" = some p ∧
      resGame.playerTurn = some "A" ∧ 0 < p.reserve ∧ 0 < 6 ∧ 0 < 6 ∧
      getCell resGameAfter.board 0 0 =
        (getCell resGame.board 0 0 ++ [p.piece]).drop
          ((getCell resGame.board 0 0 ++ [p.piece]).length - MAX_HEIGHT) ∧
      getPlayer resGameAfter "A" = some
        { p with
          reserve := p.reserve - 1 +
            ((getCell resGame.board 0 0 ++ [p.piece]).take
              ((getCell resGame.board 0 0 ++ [p.piece]).length - MAX_HEIGHT)).countP
              (fun x => x == p.piece),
          captured := p.captured +
            ((getCell resGame.board 0 0 ++ [p.piece]).take
              ((getCell resGame.board 0 0 ++ [p.piece]).length - MAX_HEIGHT)).countP
              (fun x => !(x == p.piece)) } ∧
      resGameAfter.playerTurn = (if "A" = resGame.firstPlayer.name
        then some resGame.secondPlayer.name else some resGame.firstPlayer.name)) :=
  ⟨by decide, reserve_placement_spec resGame "A" 0 0 resGameAfter (by decide) (by decide)⟩

/-- C4: every completed `move_piece(player, (fr,fc), (tr,tc), count)` with
`count ≥ 1` removes exactly the top `count` pieces of the source stack in
their bottom-to-top order, leaves the bottom `length - count` pieces there,
and lands the moved pieces in order above the destination stack's prior
contents; the destination then sheds from the bottom if it exceeds
`MAX_HEIGHT`, so its final length is `min 5 (previous length + count)`. -/
theorem move_transfer_spec (s : GameState) (name : String) (fr fc tr tc n : Nat)
    (s' : GameState) (r : MoveOut) (hwf : WF s) (hn : 1 ≤ n)
    (h : move_piece s name (fr, fc) (tr, tc) n = some (s', r)) (hr : r ≠ MoveOut.rejected) :
    n ≤ (getCell s.board fr fc).length ∧
    ((getCell s.board fr fc).drop ((getCell s.board fr fc).length - n)).length = n ∧
    getCell s'.board fr fc =
      (getCell s.board fr fc).take ((getCell s.board fr fc).length - n) ∧
    getCell s'.board tr tc =
      (getCell s.board tr tc ++
        (getCell s.board fr fc).drop ((getCell s.board fr fc).length - n)).drop
        ((getCell s.board tr tc ++
          (getCell s.board fr fc).drop ((getCell s.board fr fc).length - n)).length -
          MAX_HEIGHT) ∧
    (getCell s'.board fr fc).length = (getCell s.board fr fc).length - n ∧
    (getCell s'.board tr tc).length =
      min MAX_HEIGHT ((getCell s.board tr tc).length + n) := by
  obtain ⟨p, hgp, hturn, hpos1, hpos2, hlen, hgeom, htop, hcommit⟩ :=
    move_piece_success_inv s name fr fc tr tc n s' r h hr
  obtain ⟨hboard, _, _, _, _, _, _, _, _⟩ :=
    move_piece_commit_props s name p fr fc tr tc n hgp
  have hfst : s' = (move_piece_commit s name p fr fc tr tc n).1 := by rw [← hcommit]
  rw [← hfst] at hboard
  have hne : fr ≠ tr ∨ fc ≠ tc := by
    rcases (check_move_iff fr fc tr tc n).mp hgeom with ⟨hrr, hd⟩ | ⟨hcc, hd⟩
    · right
      intro hcc
      rw [hcc] at hd
      simp at hd
      omega
    · left
      intro hrr
      rw [hrr] at hd
      simp at hd
      omega
  have hneS : tr ≠ fr ∨ tc ≠ fc := by
    rcases hne with hx | hx
    · exact Or.inl (Ne.symm hx)
    · exact Or.inr (Ne.symm hx)
  have hfr : fr < s.board.length := by
    have := hpos1
    simp [check_position] at this
    exact this.1
  have htr : tr < s.board.length := by
    have := hpos2
    simp [check_position] at this
    exact this.1
  have htc6 : tc < s.board.length := by
    have := hpos2
    simp [check_position] at this
    exact this.2
  have h6 := hwf.1
  have hfc : fc < (s.board.getD fr []).length := by
    rw [hwf.2 _ (list_getD_mem _ _ _ hfr)]
    have := hpos1
    simp [check_position] at this
    omega
  have hwfb1 := wf_board_setCell s.board fr fc ((remove_items (getCell s.board fr fc) n).2)
    hwf.1 hwf.2 hfr
  have htrb1 : tr <
      (setCell s.board fr fc ((remove_items (getCell s.board fr fc) n).2)).length := by
    rw [length_setCell]
    exact htr
  have htc : tc <
      ((setCell s.board fr fc ((remove_items (getCell s.board fr fc) n).2)).getD tr []).length := by
    rw [hwfb1.2 _ (list_getD_mem _ _ _ htrb1)]
    omega
  have hmr := remove_items_fst_of_le (getCell s.board fr fc) n hn hlen
  have hcell_T :
      getCell (setCell s.board fr fc ((remove_items (getCell s.board fr fc) n).2)) tr tc =
      getCell s.board tr tc := getCell_setCell_ne _ _ _ _ _ _ hne
  have hcell_from : getCell s'.board fr fc =
      (getCell s.board fr fc).take ((getCell s.board fr fc).length - n) := by
    rw [hboard, getCell_setCell_ne _ _ _ _ _ _ hneS,
      getCell_setCell_self s.board fr fc _ hfr hfc]
    exact hmr.2.1
  have hcell_to : getCell s'.board tr tc =
      (getCell s.board tr tc ++
        (getCell s.board fr fc).drop ((getCell s.board fr fc).length - n)).drop
        ((getCell s.board tr tc ++
          (getCell s.board fr fc).drop ((getCell s.board fr fc).length - n)).length -
          MAX_HEIGHT) := by
    rw [hboard, getCell_setCell_self _ tr tc _ htrb1 htc, remove_pieces_spec]
    simp only
    rw [hcell_T, hmr.1]
  have hmovedlen :
      ((getCell s.board fr fc).drop ((getCell s.board fr fc).length - n)).length = n := by
    rw [List.length_drop]
    omega
  refine ⟨hlen, hmovedlen, hcell_from, hcell_to, ?_, ?_⟩
  · rw [hcell_from, List.length_take]
    omega
  · rw [hcell_to, List.length_drop, List.length_append, hmovedlen]
    simp only [MAX_HEIGHT]
    omega

def exGameMoved : GameState :=
  { exGame with
    board :=
      [[[], ["R", "R"], ["G"], ["G"], ["R"], ["R"]],
       [["G"], ["G"], ["R"], ["R"], ["G"], ["G"]],
       [["R"], ["R"], ["G"], ["G"], ["R"], ["R"]],
       [["G"], ["G"], ["R"], ["R"], ["G"], ["G"]],
       [["R"], ["R"], ["G"], ["G"], ["R"], ["R"]],
       [["G"], ["G"], ["R"], ["R"], ["G"], ["G"]]],
    playerTurn := some "B" }

theorem move_transfer_spec_witness :
    (WF exGame ∧ 1 ≤ 1 ∧
      move_piece exGame "A" (0, 0) (0, 1) 1 = some (exGameMoved, MoveOut.moved)) ∧
    (1 ≤ (getCell exGame.board 0 0).length ∧
    ((getCell exGame.board 0 0).drop ((getCell exGame.board 0 0).length - 1)).length = 1 ∧
    getCell exGameMoved.board 0 0 =
      (getCell exGame.board 0 0).take ((getCell exGame.board 0 0).length - 1) ∧
    getCell exGameMoved.board 0 1 =
      (getCell exGame.board 0 1 ++
        (getCell exGame.board 0 0).drop ((getCell exGame.board 0 0).length - 1)).drop
        ((getCell exGame.board 0 1 ++
          (getCell exGame.board 0 0).drop ((getCell exGame.board 0 0).length - 1)).length -
          MAX_HEIGHT) ∧
    (getCell exGameMoved.board 0 0).length = (getCell exGame.board 0 0).length - 1 ∧
    (getCell exGameMoved.board 0 1).length =
      min MAX_HEIGHT ((getCell exGame.board 0 1).length + 1)) :=
  ⟨⟨by decide, by decide, by decide⟩,
    move_transfer_spec exGame "A" 0 0 0 1 1 exGameMoved MoveOut.moved
      (by decide) (by decide) (by decide) (by decide)⟩

theorem check_win_iff (b : Board) (p : Player) (h6 : b.length = 6) :
    check_win b p = true ↔
      (18 ≤ p.captured ∧ ∀ i j, i < 6 → j < 6 →
        (getCell b i j ≠ [] → (getCell b i j).getLast? = some p.piece)) := by
  unfold check_win
  rw [h6]
  simp only [Bool.and_eq_true, decide_eq_true_eq, List.all_eq_true, List.mem_range]
  constructor
  · rintro ⟨hcap, hall⟩
    exact ⟨hcap, fun i j hi hj hne => hall i hi j hj (List.length_pos.mpr hne)⟩
  · rintro ⟨hcap, hall⟩
    refine ⟨hcap, fun i hi j hj hlen => ?_⟩
    apply hall i j hi hj
    intro hnil
    rw [hnil] at hlen
    simp at hlen

/-- C2: a completed `move_piece` reports a win exactly when, in the resulting
state, the mover's captured count is at least 18 and every non-empty cell of
the 6×6 board shows the mover's piece on top; a win sets the turn state to the
terminal sentinel `none`, a non-winning completed move leaves an active turn
holder ("moved" outcome); the win condition is evaluated only for the acting
player and never by `reserved_move`, whose completed calls always leave an
active turn holder. -/
theorem win_condition_spec :
    (∀ s name frm oto n s' r, WF s →
      move_piece s name frm oto n = some (s', r) → r ≠ MoveOut.rejected →
      ∃ p', getPlayer s' name = some p' ∧
        ((r = MoveOut.wins) ↔ (18 ≤ p'.captured ∧ ∀ i j, i < 6 → j < 6 →
          (getCell s'.board i j ≠ [] →
            (getCell s'.board i j).getLast? = some p'.piece))) ∧
        (r = MoveOut.wins → s'.playerTurn = none) ∧
        (r = MoveOut.moved → s'.playerTurn ≠ none)) ∧
    (∀ s name pos s', reserved_move s name pos = some (s', true) →
      s'.playerTurn ≠ none) := by
  constructor
  · intro s name frm oto n s' r hwf h hr
    obtain ⟨fr, fc⟩ := frm
    obtain ⟨tr, tc⟩ := oto
    obtain ⟨p, hgp, hturn, hpos1, hpos2, hlen, hgeom, htop, hcommit⟩ :=
      move_piece_success_inv s name fr fc tr tc n s' r h hr
    obtain ⟨hboard, hgp', hiff, hwinturn, hmovturn, hnr, _, _, _⟩ :=
      move_piece_commit_props s name p fr fc tr tc n hgp
    have hfst : s' = (move_piece_commit s name p fr fc tr tc n).1 := by rw [← hcommit]
    have hsnd : (move_piece_commit s name p fr fc tr tc n).2 = r := by rw [← hcommit]
    rw [← hfst] at hboard hgp'
    rw [hsnd] at hiff hwinturn hmovturn
    have hb2len : s'.board.length = 6 := by
      rw [hboard, length_setCell, length_setCell]
      exact hwf.1
    refine ⟨_, hgp', ?_, ?_, ?_⟩
    · rw [hiff, ← hboard]
      exact check_win_iff s'.board _ hb2len
    · intro hw
      rw [← hfst] at hwinturn
      exact hwinturn hw
    · intro hm
      rw [← hfst] at hmovturn
      rw [hmovturn hm]
      split <;> simp
  · intro s name pos s' h
    obtain ⟨row, column⟩ := pos
    obtain ⟨p, hgp, hturn, hres, hpos, hcommit⟩ :=
      reserved_move_true_inv s name row column s' h
    obtain ⟨_, _, hturnout, _, _, _⟩ :=
      reserved_move_commit_props s name p row column hgp hres
    rw [← hcommit] at hturnout
    rw [hturnout]
    split <;> simp

theorem win_condition_spec_witness :
    (∃ p', getPlayer exGameMoved "A" = some p' ∧
      ((MoveOut.moved = MoveOut.wins) ↔ (18 ≤ p'.captured ∧ ∀ i j, i < 6 → j < 6 →
        (getCell exGameMoved.board i j ≠ [] →
          (getCell exGameMoved.board i j).getLast? = some p'.piece))) ∧
      (MoveOut.moved = MoveOut.wins → exGameMoved.playerTurn = none) ∧
      (MoveOut.moved = MoveOut.moved → exGameMoved.playerTurn ≠ none)) ∧
    resGameAfter.playerTurn ≠ none :=
  ⟨win_condition_spec.1 exGame "A" (0, 0) (0, 1) 1 exGameMoved MoveOut.moved
      (by decide) (by decide) (by decide),
   win_condition_spec.2 resGame "A" (0, 0) resGameAfter (by decide)⟩
